import Mathlib

/-!
Verification of the streaming majority-vote consensus core of the
bluequbit_hackathon repository.

Bitstrings are modelled as `List Char` (the character sequence of the Python
string); a per-position counter (`collections.defaultdict(int)`) is modelled
as a total function `Char → Nat` that is `0` on absent keys; a sample log file
is modelled as the list of its lines (each line the raw text, possibly with
trailing whitespace, exactly what Python's file iteration hands to `strip`).
-/

set_option autoImplicit false

namespace Consensus

/-- A `collections.defaultdict(int)`: every absent key reads as `0`. -/
def d0 : Char → Nat := fun _ => 0

/-- Python `bit_counts[i][bit] += 1` on a single position dictionary. -/
def incr (d : Char → Nat) (b : Char) : Char → Nat :=
  fun c => if c = b then d c + 1 else d c

/-- The per-position counter update performed by the loop
`for i, bit in enumerate(sample): bit_counts[i][bit] += 1`. -/
def updateCounts : List (Char → Nat) → List Char → List (Char → Nat)
  | ds, [] => ds
  | [], _ :: _ => []
  | d :: ds, b :: bs => incr d b :: updateCounts ds bs

/-- Python `[defaultdict(int) for _ in range(num_qubits)]`. -/
def emptyCounts (n : Nat) : List (Char → Nat) := List.replicate n d0

/-- Whitespace as removed by Python `str.strip()` on log lines. -/
def isSpace (c : Char) : Bool :=
  (c == ' ') || (c == '\t') || (c == '\n') || (c == '\r')

/-- Python `line.strip()`: drop whitespace from both ends. -/
def strip (l : List Char) : List Char :=
  ((l.dropWhile isSpace).reverse.dropWhile isSpace).reverse

/-- The samples of a log that survive the `len(sample) != num_qubits` guard,
in file order, already stripped. -/
def acceptedSamples (log : List (List Char)) (n : Nat) : List (List Char) :=
  (log.map strip).filter (fun s => s.length == n)

end Consensus

namespace AnalyzeSampleAnalysis

/-- `compute_majority_vote` of `analyze_sample_analysis.py` (tie → '1',
the comparison is `count_1 >= count_0`). -/
def compute_majority_vote (bit_counts : List (Char → Nat)) (num_qubits : Nat) :
    List Char :=
  (List.range num_qubits).map (fun i =>
    let d := bit_counts.getD i Consensus.d0
    if d '0' ≤ d '1' then '1' else '0')

/-- The file-reading loop of `lines_until_target`, with the remaining lines,
the accumulated counters and the running `lines_processed` made explicit. -/
def lines_until_target_go (num_qubits : Nat) (target : List Char) :
    List (List Char) → List (Char → Nat) → Nat → Nat
  | [], _, lines_processed => lines_processed
  | line :: rest, bit_counts, lines_processed =>
    let sample := Consensus.strip line
    if sample.length ≠ num_qubits then
      lines_until_target_go num_qubits target rest bit_counts lines_processed
    else
      let bc := Consensus.updateCounts bit_counts sample
      if compute_majority_vote bc num_qubits = target then lines_processed + 1
      else lines_until_target_go num_qubits target rest bc (lines_processed + 1)

/-- `lines_until_target` of `analyze_sample_analysis.py`, with the file
replaced by the list of its lines. -/
def lines_until_target (log : List (List Char)) (num_qubits : Nat)
    (target : List Char) : Nat :=
  lines_until_target_go num_qubits target log
    (Consensus.emptyCounts num_qubits) 0

end AnalyzeSampleAnalysis

namespace TuningHelper

/-- `compute_majority_vote` of `tensor_networks_60q_parameter_tuning_helper.py`
(`count_1 >= count_0`, tie → '1'). -/
def compute_majority_vote (bit_counts : List (Char → Nat)) (num_qubits : Nat) :
    List Char :=
  (List.range num_qubits).map (fun i =>
    let d := bit_counts.getD i Consensus.d0
    if d '0' ≤ d '1' then '1' else '0')

end TuningHelper

namespace TuningGPU

/-- `compute_majority_vote` of
`tensor_network_analysis/tensor_networks_60q_paramater_tuning_withGPU.py`:
the comparison there is the strict `count_1 > count_0`, so a tie yields '0'. -/
def compute_majority_vote (bit_counts : List (Char → Nat)) (num_qubits : Nat) :
    List Char :=
  (List.range num_qubits).map (fun i =>
    let d := bit_counts.getD i Consensus.d0
    if d '0' < d '1' then '1' else '0')

end TuningGPU

namespace AnalyzeSamples

/-- One line of the accumulation loop shared by `majority_vote_from_file`:
strip, test the length, and update the counters on acceptance. -/
def ingest (num_qubits : Nat) (bit_counts : List (Char → Nat))
    (line : List Char) : List (Char → Nat) :=
  let sample := Consensus.strip line
  if sample.length = num_qubits then Consensus.updateCounts bit_counts sample
  else bit_counts

/-- The counters accumulated by `majority_vote_from_file` over a whole log. -/
def fileCounts (log : List (List Char)) (num_qubits : Nat) :
    List (Char → Nat) :=
  log.foldl (ingest num_qubits) (Consensus.emptyCounts num_qubits)

/-- `majority_vote_from_file` of `analyze_samples.py`: accumulate counts, then
for each position append '1' when `count_1 > count_0`, append '0' when
`count_0 > count_1`, and append nothing on an exact tie (the two independent
`if` statements of the source). -/
def majority_vote_from_file (log : List (List Char)) (num_qubits : Nat) :
    List Char :=
  let bit_counts := fileCounts log num_qubits
  (List.range num_qubits).foldr (fun i acc =>
    let d := bit_counts.getD i Consensus.d0
    ((if d '0' < d '1' then ['1'] else []) ++
     (if d '1' < d '0' then ['0'] else [])) ++ acc) []

/-- `Counter[sample] += 1` on an insertion-ordered association list, the model
of a Python `collections.Counter` (a dict keyed by bitstring). -/
def counterAdd : List (List Char × Nat) → List Char → List (List Char × Nat)
  | [], s => [(s, 1)]
  | (k, v) :: rest, s =>
    if k = s then (k, v + 1) :: rest else (k, v) :: counterAdd rest s

/-- The counting loop of `check_repeats_from_file`: strip each line and, when
its length is `num_qubits`, bump its entry in the running counter. -/
def counterOf_go (num_qubits : Nat) :
    List (List Char) → List (List Char × Nat) → List (List Char × Nat)
  | [], acc => acc
  | line :: rest, acc =>
    let sample := Consensus.strip line
    if sample.length = num_qubits then
      counterOf_go num_qubits rest (counterAdd acc sample)
    else counterOf_go num_qubits rest acc

/-- The full `Counter` built by `check_repeats_from_file` over a log. -/
def counterOf (log : List (List Char)) (num_qubits : Nat) :
    List (List Char × Nat) :=
  counterOf_go num_qubits log []

/-- `check_repeats_from_file` of `analyze_samples.py`: the counter restricted
to entries with count > 1 (`{b: c for b, c in counter.items() if c > 1}`). -/
def check_repeats_from_file (log : List (List Char)) (num_qubits : Nat) :
    List (List Char × Nat) :=
  (counterOf log num_qubits).filter (fun p => decide (1 < p.2))

end AnalyzeSamples

namespace TuningSweep

/-- The grid loop of `main_tuning` (both tuning scripts): each cell's
`run_experiment` call sits inside `try: ... results.append(...)
except Exception: continue`, so a raising cell appends nothing and the loop
moves on.  A cell's run is modelled as a function into `Except`. -/
def main_tuning_results {Cfg Res : Type} (grid : List Cfg)
    (run_cell : Cfg → Except String Res) : List Res :=
  grid.foldl (fun results cfg =>
    match run_cell cfg with
    | Except.ok r => results ++ [r]
    | Except.error _ => results) []

end TuningSweep

namespace Spec

/-- Spec-side view for the replayer: the tie-inclusive consensus after the
first `k` accepted samples of a log have been ingested. -/
def consensusAfter (log : List (List Char)) (n k : Nat) : List Char :=
  AnalyzeSampleAnalysis.compute_majority_vote
    (((Consensus.acceptedSamples log n).take k).foldl Consensus.updateCounts
      (Consensus.emptyCounts n)) n

/-- Spec-side occurrence count of a stripped sample in a log (only lines whose
stripped length is `n` are counted, matching the reader's guard). -/
def occ (log : List (List Char)) (n : Nat) (s : List Char) : Nat :=
  ((log.map Consensus.strip).filter (fun t => t.length == n)).count s

/-- Spec-side lookup in an insertion-ordered association list. -/
def lookupKey (s : List Char) : List (List Char × Nat) → Option Nat
  | [] => none
  | (k, v) :: rest => if k = s then some v else lookupKey s rest

end Spec

/-- Counter state with an exact tie at the single position:
one '0' and one '1' observed. -/
def tieCounts : List (Char → Nat) :=
  [Consensus.incr (Consensus.incr Consensus.d0 '0') '1']

/-- Counter state with a winning margin of exactly 1 at the single position:
one '0', no '1'. -/
def marginOneCounts : List (Char → Nat) := [Consensus.incr Consensus.d0 '0']

/-- A sweep cell runner that fails on cell 2 and succeeds elsewhere. -/
def demoRun : Nat → Except String Nat :=
  fun c => if c = 2 then Except.error "boom" else Except.ok (10 * c)

/-- The N=4 sample log of spec scenario A. -/
def demoLog : List (List Char) :=
  [['0','0','0','0'], ['1','1','1','1'], ['1','1','1','1']]

/-- The N=4 target of spec scenario A. -/
def demoTarget : List Char := ['1','1','1','1']

/-- Scenario A's log with a malformed length-3 line inserted in the middle. -/
def demoPre : List (List Char) := [['0','0','0','0']]

/-- Tail of the demonstration log used around an inserted malformed line. -/
def demoPost : List (List Char) := [['1','1','1','1'], ['1','1','1','1']]

/-- Two position-wise permuted N=2 sample streams. -/
def demoXs : List (List Char) := [['0','1'], ['1','1']]

/-- Position-wise permutation of `demoXs` (same multiset at each position). -/
def demoYs : List (List Char) := [['1','1'], ['0','1']]

/-- Counter state with winning margin 2 at the single position: two '1'. -/
def marginTwoCounts : List (Char → Nat) :=
  [Consensus.incr (Consensus.incr Consensus.d0 '1') '1']

/-! ## Infrastructure lemmas about the counter model -/

theorem Consensus.length_updateCounts :
    ∀ (ds : List (Char → Nat)) (bs : List Char),
      (Consensus.updateCounts ds bs).length = ds.length := by
  intro ds
  induction ds with
  | nil => intro bs; cases bs <;> rfl
  | cons d ds ih =>
    intro bs
    cases bs with
    | nil => rfl
    | cons b bs => simp [Consensus.updateCounts, ih]

theorem Consensus.getD_replicate (n i : Nat) :
    (List.replicate n Consensus.d0).getD i Consensus.d0 = Consensus.d0 := by
  induction n generalizing i with
  | zero => simp
  | succ n ih =>
    cases i with
    | zero => simp [List.replicate]
    | succ i =>
      simp only [List.replicate, List.getD_cons_succ]
      exact ih i

theorem Consensus.getD_updateCounts_lt (ds : List (Char → Nat)) (bs : List Char)
    (i : Nat) (h1 : i < ds.length) (h2 : i < bs.length) :
    (Consensus.updateCounts ds bs).getD i Consensus.d0 =
      Consensus.incr (ds.getD i Consensus.d0) (bs.getD i ' ') := by
  induction ds generalizing bs i with
  | nil => simp at h1
  | cons d ds ih =>
    cases bs with
    | nil => simp at h2
    | cons b bs =>
      cases i with
      | zero => simp [Consensus.updateCounts]
      | succ i =>
        simp only [Consensus.updateCounts, List.getD_cons_succ]
        exact ih bs i (by simpa using h1) (by simpa using h2)

theorem Consensus.getD_updateCounts_ge (ds : List (Char → Nat)) (bs : List Char)
    (i : Nat) (h : bs.length ≤ i) :
    (Consensus.updateCounts ds bs).getD i Consensus.d0 =
      ds.getD i Consensus.d0 := by
  induction ds generalizing bs i with
  | nil =>
    cases bs with
    | nil => rfl
    | cons b bs => simp [Consensus.updateCounts]
  | cons d ds ih =>
    cases bs with
    | nil => rfl
    | cons b bs =>
      cases i with
      | zero => simp at h
      | succ i =>
        simp only [Consensus.updateCounts, List.getD_cons_succ]
        exact ih bs i (by simpa using h)

theorem Consensus.getD_foldl_count (xs : List (List Char))
    (ds : List (Char → Nat)) (i : Nat) (c : Char)
    (h1 : i < ds.length) (h2 : ∀ s ∈ xs, i < s.length) :
    ((xs.foldl Consensus.updateCounts ds).getD i Consensus.d0) c
      = (ds.getD i Consensus.d0) c
        + (xs.map (fun s => s.getD i ' ')).count c := by
  induction xs generalizing ds with
  | nil => simp
  | cons s xs ih =>
    have hi : i < s.length := h2 s (by simp)
    rw [List.foldl_cons,
      ih (Consensus.updateCounts ds s)
        (by rw [Consensus.length_updateCounts]; exact h1)
        (fun t ht => h2 t (by simp [ht])),
      Consensus.getD_updateCounts_lt ds s i h1 hi]
    simp only [List.map_cons, List.count_cons, Consensus.incr, beq_iff_eq]
    by_cases hc : c = s.getD i ' '
    · rw [if_pos hc, if_pos hc.symm]
      omega
    · rw [if_neg hc, if_neg (fun h => hc h.symm)]
      omega

theorem AnalyzeSampleAnalysis.consensus_congr (n : Nat)
    (ds es : List (Char → Nat))
    (h : ∀ i, i < n →
      (ds.getD i Consensus.d0) '0' = (es.getD i Consensus.d0) '0' ∧
      (ds.getD i Consensus.d0) '1' = (es.getD i Consensus.d0) '1') :
    AnalyzeSampleAnalysis.compute_majority_vote ds n =
      AnalyzeSampleAnalysis.compute_majority_vote es n := by
  unfold AnalyzeSampleAnalysis.compute_majority_vote
  apply List.map_congr_left
  intro i hi
  have hh := h i (List.mem_range.mp hi)
  simp only [hh.1, hh.2]

theorem AnalyzeSampleAnalysis.consensus_getElem (ds : List (Char → Nat))
    (n i : Nat) (h : i < n) :
    (AnalyzeSampleAnalysis.compute_majority_vote ds n)[i]? =
      some (if (ds.getD i Consensus.d0) '0' ≤ (ds.getD i Consensus.d0) '1'
            then '1' else '0') := by
  unfold AnalyzeSampleAnalysis.compute_majority_vote
  simp [List.getElem?_map, List.getElem?_range, h]

theorem TuningGPU.strict_consensus_getElem (ds : List (Char → Nat))
    (n i : Nat) (h : i < n) :
    (TuningGPU.compute_majority_vote ds n)[i]? =
      some (if (ds.getD i Consensus.d0) '1' ≤ (ds.getD i Consensus.d0) '0'
            then '0' else '1') := by
  unfold TuningGPU.compute_majority_vote
  simp only [List.getElem?_map, List.getElem?_range, h, if_pos, Option.map]
  by_cases hc : (ds.getD i Consensus.d0) '0' < (ds.getD i Consensus.d0) '1'
  · rw [if_pos hc, if_neg (by omega)]
  · rw [if_neg hc, if_pos (by omega)]

/-! ## Lemmas about the replayer loop -/

theorem Consensus.acceptedSamples_cons_accept (line : List Char)
    (rest : List (List Char)) (n : Nat) (h : (Consensus.strip line).length = n) :
    Consensus.acceptedSamples (line :: rest) n =
      Consensus.strip line :: Consensus.acceptedSamples rest n := by
  simp [Consensus.acceptedSamples, h]

theorem Consensus.acceptedSamples_cons_skip (line : List Char)
    (rest : List (List Char)) (n : Nat) (h : (Consensus.strip line).length ≠ n) :
    Consensus.acceptedSamples (line :: rest) n =
      Consensus.acceptedSamples rest n := by
  simp [Consensus.acceptedSamples, h]

theorem AnalyzeSampleAnalysis.go_spec (n : Nat) (target : List Char) :
    ∀ (log : List (List Char)) (counts : List (Char → Nat)) (p : Nat),
      ∃ j, j ≤ (Consensus.acceptedSamples log n).length ∧
        AnalyzeSampleAnalysis.lines_until_target_go n target log counts p
          = p + j ∧
        (∀ k, 0 < k → k < j →
          AnalyzeSampleAnalysis.compute_majority_vote
            (((Consensus.acceptedSamples log n).take k).foldl
              Consensus.updateCounts counts) n ≠ target) ∧
        (AnalyzeSampleAnalysis.compute_majority_vote
            (((Consensus.acceptedSamples log n).take j).foldl
              Consensus.updateCounts counts) n = target ∨
          j = (Consensus.acceptedSamples log n).length) := by
  intro log
  induction log with
  | nil =>
    intro counts p
    refine ⟨0, by simp [Consensus.acceptedSamples], ?_, ?_, Or.inr ?_⟩
    · simp [AnalyzeSampleAnalysis.lines_until_target_go]
    · intro k hk0 hk1; omega
    · simp [Consensus.acceptedSamples]
  | cons line rest ih =>
    intro counts p
    by_cases hl : (Consensus.strip line).length = n
    · simp only [Consensus.acceptedSamples_cons_accept line rest n hl]
      by_cases hc : AnalyzeSampleAnalysis.compute_majority_vote
          (Consensus.updateCounts counts (Consensus.strip line)) n = target
      · refine ⟨1, ?_, ?_, ?_, Or.inl ?_⟩
        · simp
        · simp [AnalyzeSampleAnalysis.lines_until_target_go, hl, hc]
        · intro k hk0 hk1; omega
        · simpa using hc
      · obtain ⟨j, hj_le, hj_val, hj_min, hj_end⟩ :=
          ih (Consensus.updateCounts counts (Consensus.strip line)) (p + 1)
        refine ⟨j + 1, ?_, ?_, ?_, ?_⟩
        · simp only [List.length_cons]; omega
        · rw [show AnalyzeSampleAnalysis.lines_until_target_go n target
              (line :: rest) counts p =
              AnalyzeSampleAnalysis.lines_until_target_go n target rest
                (Consensus.updateCounts counts (Consensus.strip line)) (p + 1)
              from by simp [AnalyzeSampleAnalysis.lines_until_target_go, hl, hc],
            hj_val]
          omega
        · intro k hk0 hkj
          cases k with
          | zero => omega
          | succ k' =>
            rw [List.take_succ_cons, List.foldl_cons]
            cases k' with
            | zero => simpa using hc
            | succ k'' => exact hj_min (k'' + 1) (by omega) (by omega)
        · rw [List.take_succ_cons, List.foldl_cons]
          rcases hj_end with hconv | hlen
          · exact Or.inl hconv
          · right; simp only [List.length_cons]; omega
    · simp only [Consensus.acceptedSamples_cons_skip line rest n hl]
      obtain ⟨j, h1, h2, h3, h4⟩ := ih counts p
      refine ⟨j, h1, ?_, h3, h4⟩
      rw [show AnalyzeSampleAnalysis.lines_until_target_go n target
          (line :: rest) counts p =
          AnalyzeSampleAnalysis.lines_until_target_go n target rest counts p
          from by simp [AnalyzeSampleAnalysis.lines_until_target_go, hl]]
      exact h2

theorem AnalyzeSampleAnalysis.go_skip_insert (n : Nat) (target line : List Char)
    (hline : (Consensus.strip line).length ≠ n) :
    ∀ (pre post : List (List Char)) (counts : List (Char → Nat)) (p : Nat),
      AnalyzeSampleAnalysis.lines_until_target_go n target
          (pre ++ line :: post) counts p =
        AnalyzeSampleAnalysis.lines_until_target_go n target
          (pre ++ post) counts p := by
  intro pre
  induction pre with
  | nil =>
    intro post counts p
    simp [AnalyzeSampleAnalysis.lines_until_target_go, hline]
  | cons l pre ih =>
    intro post counts p
    simp only [List.cons_append]
    by_cases hl : (Consensus.strip l).length = n
    · by_cases hc : AnalyzeSampleAnalysis.compute_majority_vote
          (Consensus.updateCounts counts (Consensus.strip l)) n = target
      · simp [AnalyzeSampleAnalysis.lines_until_target_go, hl, hc]
      · simp only [AnalyzeSampleAnalysis.lines_until_target_go, hl, hc]
        simp [ih]
    · simp only [AnalyzeSampleAnalysis.lines_until_target_go, hl]
      simp [hl, ih]

theorem AnalyzeSamples.fileCounts_skip_insert (pre post : List (List Char))
    (line : List Char) (n : Nat) (h : (Consensus.strip line).length ≠ n) :
    AnalyzeSamples.fileCounts (pre ++ line :: post) n =
      AnalyzeSamples.fileCounts (pre ++ post) n := by
  unfold AnalyzeSamples.fileCounts
  rw [List.foldl_append, List.foldl_append, List.foldl_cons]
  have hid : AnalyzeSamples.ingest n
      (List.foldl (AnalyzeSamples.ingest n) (Consensus.emptyCounts n) pre) line
      = List.foldl (AnalyzeSamples.ingest n) (Consensus.emptyCounts n) pre := by
    simp [AnalyzeSamples.ingest, h]
  rw [hid]

/-! ## Claim C3 -/

/-- C3: for every log and every target, `lines_until_target` returns the
number of accepted (valid-length) samples processed at the point where the
tie-inclusive consensus first equals the target; if the consensus never
equals the target, it returns the total number of accepted samples,
terminating normally.  Formally: the returned value `r` is at most the
number of accepted samples, no proper prefix of length `k < r` (with
`k ≥ 1`) of the accepted samples already has consensus equal to the target,
and either the consensus after `r` accepted samples equals the target or
`r` is the total number of accepted samples. -/
theorem C3_replayer_semantics (log : List (List Char)) (n : Nat)
    (target : List Char) :
    AnalyzeSampleAnalysis.lines_until_target log n target ≤
      (Consensus.acceptedSamples log n).length ∧
    (∀ k, 0 < k → k < AnalyzeSampleAnalysis.lines_until_target log n target →
      Spec.consensusAfter log n k ≠ target) ∧
    (Spec.consensusAfter log n
        (AnalyzeSampleAnalysis.lines_until_target log n target) = target ∨
      AnalyzeSampleAnalysis.lines_until_target log n target =
        (Consensus.acceptedSamples log n).length) := by
  obtain ⟨j, h1, h2, h3, h4⟩ :=
    AnalyzeSampleAnalysis.go_spec n target log (Consensus.emptyCounts n) 0
  have hr : AnalyzeSampleAnalysis.lines_until_target log n target = j := by
    simpa [AnalyzeSampleAnalysis.lines_until_target] using h2
  rw [hr]
  exact ⟨h1, fun k hk0 hkj => h3 k hk0 hkj, h4⟩

/-- Witness for C3, at spec scenario A (`["0000","1111","1111"]`,
target `"1111"`, convergence after the second accepted sample). -/
theorem C3_replayer_semantics_witness :
    AnalyzeSampleAnalysis.lines_until_target demoLog 4 demoTarget = 2 ∧
    (AnalyzeSampleAnalysis.lines_until_target demoLog 4 demoTarget ≤
        (Consensus.acceptedSamples demoLog 4).length ∧
      (∀ k, 0 < k →
          k < AnalyzeSampleAnalysis.lines_until_target demoLog 4 demoTarget →
        Spec.consensusAfter demoLog 4 k ≠ demoTarget) ∧
      (Spec.consensusAfter demoLog 4
          (AnalyzeSampleAnalysis.lines_until_target demoLog 4 demoTarget) =
          demoTarget ∨
        AnalyzeSampleAnalysis.lines_until_target demoLog 4 demoTarget =
          (Consensus.acceptedSamples demoLog 4).length)) :=
  ⟨by decide, C3_replayer_semantics demoLog 4 demoTarget⟩

/-! ## Claim C4 -/

/-- C4: blank lines and lines whose stripped length differs from `N` are
skipped by `lines_until_target` and by `majority_vote_from_file`: inserting
such a line anywhere in a log changes neither the returned processed-sample
count, nor the accepted-sample sequence, nor the reported majority vote.
(A blank line is the special case of a line whose stripped length is `0`.) -/
theorem C4_malformed_skip (pre post : List (List Char)) (line : List Char)
    (n : Nat) (target : List Char)
    (h : (Consensus.strip line).length ≠ n) :
    AnalyzeSampleAnalysis.lines_until_target (pre ++ line :: post) n target =
      AnalyzeSampleAnalysis.lines_until_target (pre ++ post) n target ∧
    Consensus.acceptedSamples (pre ++ line :: post) n =
      Consensus.acceptedSamples (pre ++ post) n ∧
    AnalyzeSamples.majority_vote_from_file (pre ++ line :: post) n =
      AnalyzeSamples.majority_vote_from_file (pre ++ post) n := by
  refine ⟨?_, ?_, ?_⟩
  · unfold AnalyzeSampleAnalysis.lines_until_target
    exact AnalyzeSampleAnalysis.go_skip_insert n target line h pre post
      (Consensus.emptyCounts n) 0
  · simp [Consensus.acceptedSamples, h]
  · unfold AnalyzeSamples.majority_vote_from_file
    rw [AnalyzeSamples.fileCounts_skip_insert pre post line n h]

/-- Witness for C4: a length-3 line inside an N=4 log (spec scenario B) and a
blank line are both skipped, leaving the processed count and the majority
report unchanged. -/
theorem C4_malformed_skip_witness :
    ((Consensus.strip ['0','1','0']).length ≠ 4 ∧
      (AnalyzeSampleAnalysis.lines_until_target
          (demoPre ++ ['0','1','0'] :: demoPost) 4 demoTarget =
        AnalyzeSampleAnalysis.lines_until_target (demoPre ++ demoPost) 4
          demoTarget ∧
      Consensus.acceptedSamples (demoPre ++ ['0','1','0'] :: demoPost) 4 =
        Consensus.acceptedSamples (demoPre ++ demoPost) 4 ∧
      AnalyzeSamples.majority_vote_from_file
          (demoPre ++ ['0','1','0'] :: demoPost) 4 =
        AnalyzeSamples.majority_vote_from_file (demoPre ++ demoPost) 4)) ∧
    ((Consensus.strip ['\n']).length ≠ 4 ∧
      (AnalyzeSampleAnalysis.lines_until_target
          (demoPre ++ ['\n'] :: demoPost) 4 demoTarget =
        AnalyzeSampleAnalysis.lines_until_target (demoPre ++ demoPost) 4
          demoTarget ∧
      Consensus.acceptedSamples (demoPre ++ ['\n'] :: demoPost) 4 =
        Consensus.acceptedSamples (demoPre ++ demoPost) 4 ∧
      AnalyzeSamples.majority_vote_from_file
          (demoPre ++ ['\n'] :: demoPost) 4 =
        AnalyzeSamples.majority_vote_from_file (demoPre ++ demoPost) 4)) :=
  ⟨⟨by decide, C4_malformed_skip demoPre demoPost ['0','1','0'] 4 demoTarget
      (by decide)⟩,
    ⟨by decide, C4_malformed_skip demoPre demoPost ['\n'] 4 demoTarget
      (by decide)⟩⟩

/-! ## Claim C1 -/

/-- C1 counterexample: the claim says every convergence-driving
`compute_majority_vote` yields '1' whenever `oneCount ≥ zeroCount`; but the
GPU sweep's `compute_majority_vote`
(`tensor_networks_60q_paramater_tuning_withGPU.py`) uses the strict
`count_1 > count_0`, so on the exact tie 1–1 it yields '0', not '1'. -/
theorem C1_counterexample :
    (tieCounts.getD 0 Consensus.d0) '0' ≤ (tieCounts.getD 0 Consensus.d0) '1' ∧
    TuningGPU.compute_majority_vote tieCounts 1 ≠ ['1'] ∧
    TuningGPU.compute_majority_vote tieCounts 1 = ['0'] := by decide

/-- C1 (amended): `compute_majority_vote` of `analyze_sample_analysis.py` is
tie-inclusive — bit `i` of its output is '1' iff `oneCount ≥ zeroCount` at
`i` — and the helper sweep's `compute_majority_vote`
(`tensor_networks_60q_parameter_tuning_helper.py`) is the identical
tie-inclusive function; but the GPU sweep's `compute_majority_vote`, which
drives that script's `run_experiment` convergence check, is strict: bit `i`
is '1' iff `oneCount > zeroCount`, so an exact tie yields '0' there. -/
theorem C1_tie_policy_per_site (bit_counts : List (Char → Nat)) (n i : Nat)
    (h : i < n) :
    (AnalyzeSampleAnalysis.compute_majority_vote bit_counts n)[i]? =
      some (if (bit_counts.getD i Consensus.d0) '0' ≤
              (bit_counts.getD i Consensus.d0) '1' then '1' else '0') ∧
    TuningHelper.compute_majority_vote bit_counts n =
      AnalyzeSampleAnalysis.compute_majority_vote bit_counts n ∧
    (TuningGPU.compute_majority_vote bit_counts n)[i]? =
      some (if (bit_counts.getD i Consensus.d0) '1' ≤
              (bit_counts.getD i Consensus.d0) '0' then '0' else '1') :=
  ⟨AnalyzeSampleAnalysis.consensus_getElem bit_counts n i h, rfl,
    TuningGPU.strict_consensus_getElem bit_counts n i h⟩

/-- Witness for C1's amended theorem at the tied counter state. -/
theorem C1_tie_policy_per_site_witness :
    (0 : Nat) < 1 ∧
    ((AnalyzeSampleAnalysis.compute_majority_vote tieCounts 1)[0]? =
      some (if (tieCounts.getD 0 Consensus.d0) '0' ≤
              (tieCounts.getD 0 Consensus.d0) '1' then '1' else '0') ∧
    TuningHelper.compute_majority_vote tieCounts 1 =
      AnalyzeSampleAnalysis.compute_majority_vote tieCounts 1 ∧
    (TuningGPU.compute_majority_vote tieCounts 1)[0]? =
      some (if (tieCounts.getD 0 Consensus.d0) '1' ≤
              (tieCounts.getD 0 Consensus.d0) '0' then '0' else '1')) :=
  ⟨by decide, C1_tie_policy_per_site tieCounts 1 0 (by decide)⟩

/-! ## Claim C2 -/

/-- C2 counterexample: with no samples observed, every position has
`oneCount = zeroCount = 0`, and since the tie-inclusive rule is
`'1' if count_1 >= count_0`, the consensus is '1' at every position —
not '0' as the claim states.  Shown at N = 1. -/
theorem C2_counterexample :
    AnalyzeSampleAnalysis.compute_majority_vote (Consensus.emptyCounts 1) 1 ≠
      ['0'] ∧
    AnalyzeSampleAnalysis.compute_majority_vote (Consensus.emptyCounts 1) 1 =
      ['1'] := by decide

/-- C2 (amended): when no samples have been observed (all counters zero at
every position), the tie-inclusive consensus vector is '1' at every one of
the N positions (0 ≥ 0, and ties resolve to '1'). -/
theorem C2_empty_stream_consensus (n : Nat) :
    AnalyzeSampleAnalysis.compute_majority_vote (Consensus.emptyCounts n) n =
      List.replicate n '1' := by
  unfold AnalyzeSampleAnalysis.compute_majority_vote Consensus.emptyCounts
  rw [List.eq_replicate_iff]
  constructor
  · simp
  · intro b hb
    obtain ⟨i, hi, hval⟩ := List.mem_map.mp hb
    rw [← hval, Consensus.getD_replicate]
    rfl

/-! ## Claim C6 -/

/-- C6: dual tie policy on the exact-tie case.  With N=1 and the sample
stream `["0","1"]`, the tie-inclusive consensus (`compute_majority_vote`) is
`"1"`, while the tie-exclusive derivation of `majority_vote_from_file`
(which emits no vote for a position whose zero-count equals its one-count)
returns the empty string, which is shorter than N. -/
theorem C6_dual_tie_policy :
    AnalyzeSampleAnalysis.compute_majority_vote
      (AnalyzeSamples.fileCounts [['0'], ['1']] 1) 1 = ['1'] ∧
    AnalyzeSamples.majority_vote_from_file [['0'], ['1']] 1 = [] ∧
    (AnalyzeSamples.majority_vote_from_file [['0'], ['1']] 1).length < 1 := by
  decide

/-! ## Claim C7 -/

/-- C7 counterexample: on a 4-cell grid whose cell `2` fails, `main_tuning`
yields exactly the three success records `[10, 30, 40]` — every recorded
result is the payload of a successful cell, and nothing at all is recorded
for the failed cell, contradicting the claim that the sweep records that
cell's failure in the results (one result "marked failed"). -/
theorem C7_counterexample :
    TuningSweep.main_tuning_results [1, 2, 3, 4] demoRun = [10, 30, 40] ∧
    (TuningSweep.main_tuning_results [1, 2, 3, 4] demoRun).length = 3 ∧
    (∀ r ∈ TuningSweep.main_tuning_results [1, 2, 3, 4] demoRun,
      ∃ c ∈ [1, 3, 4], (demoRun c).toOption = some r) := by
  decide

theorem TuningSweep.main_tuning_results_go {Cfg Res : Type}
    (run_cell : Cfg → Except String Res) :
    ∀ (grid : List Cfg) (acc : List Res),
      grid.foldl (fun results cfg =>
        match run_cell cfg with
        | Except.ok r => results ++ [r]
        | Except.error _ => results) acc
      = acc ++ grid.filterMap (fun c => (run_cell c).toOption) := by
  intro grid
  induction grid with
  | nil => intro acc; simp
  | cons c grid ih =>
    intro acc
    rw [List.foldl_cons, List.filterMap_cons]
    cases hrc : run_cell c with
    | ok r => simp [hrc, Except.toOption, ih]
    | error e => simp [hrc, Except.toOption, ih]

/-- C7 (amended): if one grid cell's run raises, the sweep appends nothing
for that cell and continues with the remaining cells; the sweep itself never
raises (it is a total function) and its result list is exactly the list of
the successful cells' payloads in grid order.  In particular a 2x2 grid with
one failing cell yields 3 results, none of which records the failure. -/
theorem C7_sweep_skips_failures {Cfg Res : Type} (grid : List Cfg)
    (run_cell : Cfg → Except String Res) :
    TuningSweep.main_tuning_results grid run_cell =
      grid.filterMap (fun c => (run_cell c).toOption) := by
  unfold TuningSweep.main_tuning_results
  simpa using TuningSweep.main_tuning_results_go run_cell grid []

/-! ## Claim C8 -/

/-- C8: order-independence.  For two sample streams of length-N samples
whose per-position symbol multisets agree (position-wise permutations), the
tie-inclusive consensus after ingesting all samples is identical. -/
theorem C8_order_independence (n : Nat) (xs ys : List (List Char))
    (hx : ∀ s ∈ xs, s.length = n) (hy : ∀ s ∈ ys, s.length = n)
    (hperm : ∀ i, i < n →
      (xs.map (fun s => s.getD i ' ')).Perm
        (ys.map (fun s => s.getD i ' '))) :
    AnalyzeSampleAnalysis.compute_majority_vote
        (xs.foldl Consensus.updateCounts (Consensus.emptyCounts n)) n =
      AnalyzeSampleAnalysis.compute_majority_vote
        (ys.foldl Consensus.updateCounts (Consensus.emptyCounts n)) n := by
  apply AnalyzeSampleAnalysis.consensus_congr
  intro i hi
  have hxlen : i < (Consensus.emptyCounts n).length := by
    simp only [Consensus.emptyCounts, List.length_replicate]
    exact hi
  have hxall : ∀ s ∈ xs, i < s.length := fun s hs => by
    rw [hx s hs]; exact hi
  have hyall : ∀ s ∈ ys, i < s.length := fun s hs => by
    rw [hy s hs]; exact hi
  refine ⟨?_, ?_⟩
  · rw [Consensus.getD_foldl_count xs (Consensus.emptyCounts n) i '0' hxlen
        hxall,
      Consensus.getD_foldl_count ys (Consensus.emptyCounts n) i '0' hxlen
        hyall,
      List.Perm.count_eq (hperm i hi)]
  · rw [Consensus.getD_foldl_count xs (Consensus.emptyCounts n) i '1' hxlen
        hxall,
      Consensus.getD_foldl_count ys (Consensus.emptyCounts n) i '1' hxlen
        hyall,
      List.Perm.count_eq (hperm i hi)]

/-- Witness for C8 on the position-wise permuted N=2 streams
`["01","11"]` and `["11","01"]`. -/
theorem C8_order_independence_witness :
    (∀ s ∈ demoXs, s.length = 2) ∧ (∀ s ∈ demoYs, s.length = 2) ∧
    AnalyzeSampleAnalysis.compute_majority_vote
        (demoXs.foldl Consensus.updateCounts (Consensus.emptyCounts 2)) 2 =
      AnalyzeSampleAnalysis.compute_majority_vote
        (demoYs.foldl Consensus.updateCounts (Consensus.emptyCounts 2)) 2 :=
  ⟨by decide, by decide,
    C8_order_independence 2 demoXs demoYs (by decide) (by decide)
      (by
        intro i hi
        rcases i with _ | _ | i
        · decide
        · decide
        · omega)⟩

/-! ## Claim C9 -/

theorem Consensus.margin_bit (d : Char → Nat) (b : Char)
    (h : d '0' + 2 ≤ d '1' ∨ d '1' + 2 ≤ d '0') :
    (if (Consensus.incr d b) '0' ≤ (Consensus.incr d b) '1' then '1' else '0')
      = (if d '0' ≤ d '1' then '1' else '0') := by
  have hx : d '0' ≤ (Consensus.incr d b) '0' ∧
      (Consensus.incr d b) '0' ≤ d '0' + 1 := by
    have e : (Consensus.incr d b) '0'
        = if ('0' : Char) = b then d '0' + 1 else d '0' := rfl
    rw [e]; split <;> omega
  have hy : d '1' ≤ (Consensus.incr d b) '1' ∧
      (Consensus.incr d b) '1' ≤ d '1' + 1 := by
    have e : (Consensus.incr d b) '1'
        = if ('1' : Char) = b then d '1' + 1 else d '1' := rfl
    rw [e]; split <;> omega
  rcases h with h | h
  · rw [if_pos (show (Consensus.incr d b) '0' ≤ (Consensus.incr d b) '1' by
        omega),
      if_pos (show d '0' ≤ d '1' by omega)]
  · rw [if_neg (show ¬ (Consensus.incr d b) '0' ≤ (Consensus.incr d b) '1' by
        omega),
      if_neg (show ¬ d '0' ≤ d '1' by omega)]

/-- C9: convergence margin boundary.  (1) If the tie-inclusive consensus of a
count state equals the target and at every position the winning count
exceeds the losing count by at least 2, then ingesting any one further
sample of valid length leaves the consensus equal to the target.  (2) There
is a converged count state with a margin of exactly 1 at some position and a
single sample whose ingestion makes the consensus differ from the target:
one '0' observed, target "0", ingesting "1" flips the consensus to "1"
(the tie now resolves to '1'). -/
theorem C9_margin_boundary :
    (∀ (bit_counts : List (Char → Nat)) (n : Nat) (target s : List Char),
      bit_counts.length = n → s.length = n →
      AnalyzeSampleAnalysis.compute_majority_vote bit_counts n = target →
      (∀ i, i < n →
        (bit_counts.getD i Consensus.d0) '0' + 2 ≤
          (bit_counts.getD i Consensus.d0) '1' ∨
        (bit_counts.getD i Consensus.d0) '1' + 2 ≤
          (bit_counts.getD i Consensus.d0) '0') →
      AnalyzeSampleAnalysis.compute_majority_vote
        (Consensus.updateCounts bit_counts s) n = target) ∧
    (AnalyzeSampleAnalysis.compute_majority_vote marginOneCounts 1 = ['0'] ∧
      (marginOneCounts.getD 0 Consensus.d0) '0' =
        (marginOneCounts.getD 0 Consensus.d0) '1' + 1 ∧
      AnalyzeSampleAnalysis.compute_majority_vote
        (Consensus.updateCounts marginOneCounts ['1']) 1 ≠ ['0']) := by
  constructor
  · intro bc n target s hlen hs hconv hmargin
    rw [← hconv]
    unfold AnalyzeSampleAnalysis.compute_majority_vote
    apply List.map_congr_left
    intro i hi
    have hin := List.mem_range.mp hi
    rw [Consensus.getD_updateCounts_lt bc s i (by omega) (by omega)]
    exact Consensus.margin_bit _ _ (hmargin i hin)
  · exact ⟨by decide, by decide, by decide⟩

/-- Witness for C9's universal part: a converged state with margin 2 (two
'1's, no '0') stays converged after ingesting the opposing sample "0". -/
theorem C9_margin_boundary_witness :
    marginTwoCounts.length = 1 ∧
    AnalyzeSampleAnalysis.compute_majority_vote marginTwoCounts 1 = ['1'] ∧
    AnalyzeSampleAnalysis.compute_majority_vote
      (Consensus.updateCounts marginTwoCounts ['0']) 1 = ['1'] :=
  ⟨by decide, by decide,
    C9_margin_boundary.1 marginTwoCounts 1 ['1'] ['0'] (by decide) (by decide)
      (by decide)
      (by
        intro i hi
        rcases i with _ | i
        · decide
        · omega)⟩

/-! ## Claim C10 -/

theorem Consensus.count_binary (l : List Char)
    (h : ∀ c ∈ l, c = '0' ∨ c = '1') :
    l.count '0' + l.count '1' = l.length := by
  induction l with
  | nil => simp
  | cons c l ih =>
    have hc := h c (by simp)
    have ihh := ih (fun c2 h2 => h c2 (List.mem_cons_of_mem c h2))
    rcases hc with hc | hc <;> subst hc <;>
      simp [List.count_cons] <;> omega

/-- C10 (implicit): a line whose stripped length equals N is always accepted,
even when it contains characters outside {0,1}: `lines_until_target` counts
it as one processed sample (a one-line log always returns 1) and
`check_repeats_from_file` counts it toward duplicates (a log of two copies
reports count 2).  A non-binary character at position i increments the
counter keyed by that character and leaves both the '0'- and '1'-counts at i
unchanged, so the consensus bit at i is as if the sample had not contributed
there.  The invariant zeroCount + oneCount = total-samples holds for streams
of all-binary length-N lines, and fails on the non-binary stream `["2"]`
(0 + 0 ≠ 1). -/
theorem C10_nonbinary_acceptance :
    (∀ (line : List Char) (n : Nat) (target : List Char),
      (Consensus.strip line).length = n →
      AnalyzeSampleAnalysis.lines_until_target [line] n target = 1) ∧
    (∀ (line : List Char) (n : Nat),
      (Consensus.strip line).length = n →
      AnalyzeSamples.check_repeats_from_file [line, line] n =
        [(Consensus.strip line, 2)]) ∧
    (∀ (ds : List (Char → Nat)) (s : List Char) (i : Nat) (c : Char),
      i < ds.length → i < s.length → s.getD i ' ' = c →
      ((Consensus.updateCounts ds s).getD i Consensus.d0) c =
        ((ds.getD i Consensus.d0) c) + 1 ∧
      (∀ c2, c2 ≠ c →
        ((Consensus.updateCounts ds s).getD i Consensus.d0) c2 =
          (ds.getD i Consensus.d0) c2)) ∧
    (∀ (ds : List (Char → Nat)) (s : List Char) (n i : Nat),
      ds.length = n → s.length = n → i < n →
      s.getD i ' ' ≠ '0' → s.getD i ' ' ≠ '1' →
      (AnalyzeSampleAnalysis.compute_majority_vote
          (Consensus.updateCounts ds s) n)[i]? =
        (AnalyzeSampleAnalysis.compute_majority_vote ds n)[i]?) ∧
    (∀ (xs : List (List Char)) (n i : Nat),
      i < n → (∀ s ∈ xs, s.length = n) →
      (∀ s ∈ xs, ∀ c ∈ s, c = '0' ∨ c = '1') →
      ((xs.foldl Consensus.updateCounts (Consensus.emptyCounts n)).getD i
          Consensus.d0) '0' +
      ((xs.foldl Consensus.updateCounts (Consensus.emptyCounts n)).getD i
          Consensus.d0) '1' = xs.length) ∧
    ((([['2']] : List (List Char)).foldl Consensus.updateCounts
        (Consensus.emptyCounts 1)).getD 0 Consensus.d0) '0' +
      ((([['2']] : List (List Char)).foldl Consensus.updateCounts
        (Consensus.emptyCounts 1)).getD 0 Consensus.d0) '1' = 0 := by
  refine ⟨?_, ?_, ?_, ?_, ?_, by decide⟩
  · intro line n target h
    show AnalyzeSampleAnalysis.lines_until_target_go n target [line]
      (Consensus.emptyCounts n) 0 = 1
    simp [AnalyzeSampleAnalysis.lines_until_target_go, h]
  · intro line n h
    simp [AnalyzeSamples.check_repeats_from_file, AnalyzeSamples.counterOf,
      AnalyzeSamples.counterOf_go, AnalyzeSamples.counterAdd, h]
  · intro ds s i c hdi hsi hget
    refine ⟨?_, ?_⟩
    · rw [Consensus.getD_updateCounts_lt ds s i hdi hsi]
      have e : (Consensus.incr (ds.getD i Consensus.d0) (s.getD i ' ')) c
          = if c = s.getD i ' ' then (ds.getD i Consensus.d0) c + 1
            else (ds.getD i Consensus.d0) c := rfl
      rw [e, if_pos hget.symm]
    · intro c2 hc2
      rw [Consensus.getD_updateCounts_lt ds s i hdi hsi]
      have e : (Consensus.incr (ds.getD i Consensus.d0) (s.getD i ' ')) c2
          = if c2 = s.getD i ' ' then (ds.getD i Consensus.d0) c2 + 1
            else (ds.getD i Consensus.d0) c2 := rfl
      rw [e, if_neg (fun hh => hc2 (hh.trans hget))]
  · intro ds s n i hds hs hi h0 h1
    rw [AnalyzeSampleAnalysis.consensus_getElem _ n i hi,
      AnalyzeSampleAnalysis.consensus_getElem _ n i hi,
      Consensus.getD_updateCounts_lt ds s i (by omega) (by omega)]
    have e0 : (Consensus.incr (ds.getD i Consensus.d0) (s.getD i ' ')) '0'
        = (ds.getD i Consensus.d0) '0' := by
      have e : (Consensus.incr (ds.getD i Consensus.d0) (s.getD i ' ')) '0'
          = if ('0' : Char) = s.getD i ' '
            then (ds.getD i Consensus.d0) '0' + 1
            else (ds.getD i Consensus.d0) '0' := rfl
      rw [e, if_neg (fun hh => h0 hh.symm)]
    have e1 : (Consensus.incr (ds.getD i Consensus.d0) (s.getD i ' ')) '1'
        = (ds.getD i Consensus.d0) '1' := by
      have e : (Consensus.incr (ds.getD i Consensus.d0) (s.getD i ' ')) '1'
          = if ('1' : Char) = s.getD i ' '
            then (ds.getD i Consensus.d0) '1' + 1
            else (ds.getD i Consensus.d0) '1' := rfl
      rw [e, if_neg (fun hh => h1 hh.symm)]
    rw [e0, e1]
  · intro xs n i hi hlen hbin
    have hxlen : i < (Consensus.emptyCounts n).length := by
      simp only [Consensus.emptyCounts, List.length_replicate]
      exact hi
    have hxall : ∀ s ∈ xs, i < s.length := fun s hs => by
      rw [hlen s hs]; exact hi
    rw [Consensus.getD_foldl_count xs (Consensus.emptyCounts n) i '0' hxlen
        hxall,
      Consensus.getD_foldl_count xs (Consensus.emptyCounts n) i '1' hxlen
        hxall]
    have he : (Consensus.emptyCounts n).getD i Consensus.d0 = Consensus.d0 :=
      Consensus.getD_replicate n i
    rw [he]
    have hmem : ∀ c ∈ xs.map (fun s => s.getD i ' '), c = '0' ∨ c = '1' := by
      intro c hcm
      obtain ⟨s, hs, rfl⟩ := List.mem_map.mp hcm
      have hsl : i < s.length := hxall s hs
      have hmem2 : s.getD i ' ' ∈ s := by
        rw [List.getD_eq_getElem?_getD, List.getElem?_eq_getElem hsl]
        exact List.getElem_mem hsl
      exact hbin s hs _ hmem2
    have hcnt := Consensus.count_binary _ hmem
    rw [List.length_map] at hcnt
    show 0 + _ + (0 + _) = _
    omega

/-! ## Claim C5 -/

theorem Spec.lookupKey_nil (t : List Char) :
    Spec.lookupKey t ([] : List (List Char × Nat)) = none := rfl

theorem Spec.lookupKey_cons (k : List Char) (v : Nat)
    (rest : List (List Char × Nat)) (t : List Char) :
    Spec.lookupKey t ((k, v) :: rest) =
      if k = t then some v else Spec.lookupKey t rest := rfl

theorem Spec.lookupKey_eq_none (acc : List (List Char × Nat)) (t : List Char)
    (h : t ∉ acc.map Prod.fst) : Spec.lookupKey t acc = none := by
  induction acc with
  | nil => rfl
  | cons kv rest ih =>
    obtain ⟨k, v⟩ := kv
    simp only [List.map_cons, List.mem_cons] at h
    push_neg at h
    rw [Spec.lookupKey_cons, if_neg (fun hh => h.1 hh.symm), ih h.2]

theorem Spec.occ_cons_accept (line : List Char) (rest : List (List Char))
    (n : Nat) (t : List Char) (h : (Consensus.strip line).length = n) :
    Spec.occ (line :: rest) n t =
      (if Consensus.strip line = t then 1 else 0) + Spec.occ rest n t := by
  unfold Spec.occ
  rw [List.map_cons, List.filter_cons, if_pos (by simp [h]), List.count_cons]
  by_cases hst : Consensus.strip line = t
  · rw [if_pos hst, if_pos (by simp [hst])]
    omega
  · rw [if_neg hst, if_neg (by simp [hst])]
    omega

theorem Spec.occ_cons_skip (line : List Char) (rest : List (List Char))
    (n : Nat) (t : List Char) (h : (Consensus.strip line).length ≠ n) :
    Spec.occ (line :: rest) n t = Spec.occ rest n t := by
  simp [Spec.occ, List.filter_cons, h]

theorem Spec.lookupKey_counterAdd (acc : List (List Char × Nat))
    (s t : List Char) :
    Spec.lookupKey t (AnalyzeSamples.counterAdd acc s) =
      if t = s then some ((Spec.lookupKey s acc).getD 0 + 1)
      else Spec.lookupKey t acc := by
  induction acc with
  | nil =>
    by_cases hts : t = s
    · subst hts
      simp [AnalyzeSamples.counterAdd, Spec.lookupKey_cons, Spec.lookupKey_nil]
    · rw [if_neg hts,
        show AnalyzeSamples.counterAdd [] s = [(s, 1)] from rfl,
        Spec.lookupKey_cons, if_neg (fun hh => hts hh.symm)]
  | cons kv rest ih =>
    obtain ⟨k, v⟩ := kv
    by_cases hks : k = s
    · subst hks
      rw [show AnalyzeSamples.counterAdd ((k, v) :: rest) k = (k, v + 1) :: rest
          from by simp [AnalyzeSamples.counterAdd]]
      by_cases htk : t = k
      · subst htk
        rw [Spec.lookupKey_cons, if_pos rfl, if_pos rfl, Spec.lookupKey_cons,
          if_pos rfl]
        simp
      · rw [Spec.lookupKey_cons, if_neg (fun hh => htk hh.symm), if_neg htk,
          Spec.lookupKey_cons, if_neg (fun hh => htk hh.symm)]
    · rw [show AnalyzeSamples.counterAdd ((k, v) :: rest) s =
          (k, v) :: AnalyzeSamples.counterAdd rest s
          from by simp [AnalyzeSamples.counterAdd, hks]]
      by_cases htk : t = k
      · subst htk
        rw [Spec.lookupKey_cons, if_pos rfl, if_neg hks, Spec.lookupKey_cons,
          if_pos rfl]
      · rw [Spec.lookupKey_cons, if_neg (fun hh => htk hh.symm), ih,
          show Spec.lookupKey s ((k, v) :: rest) = Spec.lookupKey s rest from by
            rw [Spec.lookupKey_cons, if_neg hks],
          show Spec.lookupKey t ((k, v) :: rest) = Spec.lookupKey t rest from by
            rw [Spec.lookupKey_cons, if_neg (fun hh => htk hh.symm)]]

theorem AnalyzeSamples.mem_keys_counterAdd (acc : List (List Char × Nat))
    (s t : List Char) :
    t ∈ (AnalyzeSamples.counterAdd acc s).map Prod.fst ↔
      t ∈ acc.map Prod.fst ∨ t = s := by
  induction acc with
  | nil => simp [AnalyzeSamples.counterAdd]
  | cons kv rest ih =>
    obtain ⟨k, v⟩ := kv
    by_cases hks : k = s
    · subst hks
      simp [AnalyzeSamples.counterAdd, List.mem_cons]
      tauto
    · simp [AnalyzeSamples.counterAdd, hks, List.mem_cons, ih]
      tauto

theorem AnalyzeSamples.nodup_keys_counterAdd (acc : List (List Char × Nat))
    (s : List Char) (h : (acc.map Prod.fst).Nodup) :
    ((AnalyzeSamples.counterAdd acc s).map Prod.fst).Nodup := by
  induction acc with
  | nil => simp [AnalyzeSamples.counterAdd]
  | cons kv rest ih =>
    obtain ⟨k, v⟩ := kv
    simp only [List.map_cons, List.nodup_cons] at h
    by_cases hks : k = s
    · subst hks
      rw [show AnalyzeSamples.counterAdd ((k, v) :: rest) k = (k, v + 1) :: rest
          from by simp [AnalyzeSamples.counterAdd]]
      simp only [List.map_cons, List.nodup_cons]
      exact h
    · rw [show AnalyzeSamples.counterAdd ((k, v) :: rest) s =
          (k, v) :: AnalyzeSamples.counterAdd rest s
          from by simp [AnalyzeSamples.counterAdd, hks]]
      simp only [List.map_cons, List.nodup_cons]
      refine ⟨?_, ih h.2⟩
      rw [AnalyzeSamples.mem_keys_counterAdd]
      rintro (hh | hh)
      · exact h.1 hh
      · exact hks hh

theorem AnalyzeSamples.nodup_keys_counterOf_go (n : Nat) :
    ∀ (log : List (List Char)) (acc : List (List Char × Nat)),
      (acc.map Prod.fst).Nodup →
      ((AnalyzeSamples.counterOf_go n log acc).map Prod.fst).Nodup := by
  intro log
  induction log with
  | nil => intro acc h; exact h
  | cons line rest ih =>
    intro acc h
    by_cases hl : (Consensus.strip line).length = n
    · rw [show AnalyzeSamples.counterOf_go n (line :: rest) acc =
          AnalyzeSamples.counterOf_go n rest
            (AnalyzeSamples.counterAdd acc (Consensus.strip line))
          from by simp [AnalyzeSamples.counterOf_go, hl]]
      exact ih _ (AnalyzeSamples.nodup_keys_counterAdd acc _ h)
    · rw [show AnalyzeSamples.counterOf_go n (line :: rest) acc =
          AnalyzeSamples.counterOf_go n rest acc
          from by simp [AnalyzeSamples.counterOf_go, hl]]
      exact ih acc h

theorem Spec.lookupKey_filter (acc : List (List Char × Nat)) (t : List Char)
    (h : (acc.map Prod.fst).Nodup) :
    Spec.lookupKey t (acc.filter (fun p => decide (1 < p.2))) =
      (Spec.lookupKey t acc).bind
        (fun c => if 1 < c then some c else none) := by
  induction acc with
  | nil => rfl
  | cons kv rest ih =>
    obtain ⟨k, v⟩ := kv
    simp only [List.map_cons, List.nodup_cons] at h
    by_cases htk : k = t
    · subst htk
      by_cases hv : 1 < v
      · rw [show ((k, v) :: rest).filter (fun p => decide (1 < p.2)) =
            (k, v) :: rest.filter (fun p => decide (1 < p.2)) from by
              simp [List.filter_cons, hv],
          Spec.lookupKey_cons, if_pos rfl, Spec.lookupKey_cons, if_pos rfl]
        simp [hv]
      · rw [show ((k, v) :: rest).filter (fun p => decide (1 < p.2)) =
            rest.filter (fun p => decide (1 < p.2)) from by
              simp [List.filter_cons, hv],
          Spec.lookupKey_cons, if_pos rfl]
        rw [Spec.lookupKey_eq_none _ k (fun hmem => by
          obtain ⟨q, hq, hfst⟩ := List.mem_map.mp hmem
          exact h.1 (List.mem_map.mpr ⟨q, (List.mem_filter.mp hq).1, hfst⟩))]
        simp [hv]
    · by_cases hv : 1 < v
      · rw [show ((k, v) :: rest).filter (fun p => decide (1 < p.2)) =
            (k, v) :: rest.filter (fun p => decide (1 < p.2)) from by
              simp [List.filter_cons, hv],
          Spec.lookupKey_cons, if_neg htk, Spec.lookupKey_cons, if_neg htk]
        exact ih h.2
      · rw [show ((k, v) :: rest).filter (fun p => decide (1 < p.2)) =
            rest.filter (fun p => decide (1 < p.2)) from by
              simp [List.filter_cons, hv],
          Spec.lookupKey_cons, if_neg htk]
        exact ih h.2

theorem AnalyzeSamples.lookupKey_counterOf_go (n : Nat) :
    ∀ (log : List (List Char)) (acc : List (List Char × Nat)) (t : List Char),
      Spec.lookupKey t (AnalyzeSamples.counterOf_go n log acc) =
        if 0 < Spec.occ log n t ∨ (Spec.lookupKey t acc).isSome then
          some ((Spec.lookupKey t acc).getD 0 + Spec.occ log n t)
        else none := by
  intro log
  induction log with
  | nil =>
    intro acc t
    rw [show AnalyzeSamples.counterOf_go n [] acc = acc from rfl,
      show Spec.occ [] n t = 0 from rfl]
    cases hl : Spec.lookupKey t acc with
    | none => simp
    | some v => simp
  | cons line rest ih =>
    intro acc t
    by_cases hl : (Consensus.strip line).length = n
    · rw [show AnalyzeSamples.counterOf_go n (line :: rest) acc =
          AnalyzeSamples.counterOf_go n rest
            (AnalyzeSamples.counterAdd acc (Consensus.strip line))
          from by simp [AnalyzeSamples.counterOf_go, hl],
        ih (AnalyzeSamples.counterAdd acc (Consensus.strip line)) t,
        Spec.occ_cons_accept line rest n t hl,
        Spec.lookupKey_counterAdd acc (Consensus.strip line) t]
      by_cases hst : t = Consensus.strip line
      · subst hst
        rw [if_pos rfl, if_pos rfl]
        rw [if_pos (show (0 : Nat) <
              Spec.occ rest n (Consensus.strip line) ∨
            (some ((Spec.lookupKey (Consensus.strip line) acc).getD 0 +
              1)).isSome = true from Or.inr (by simp))]
        rw [if_pos (show (0 : Nat) <
              1 + Spec.occ rest n (Consensus.strip line) ∨
            (Spec.lookupKey (Consensus.strip line) acc).isSome = true from
            Or.inl (by omega))]
        simp only [Option.getD_some]
        exact congrArg some (by omega)
      · rw [if_neg (show ¬ (t = Consensus.strip line) from hst)]
        rw [if_neg (show ¬ (Consensus.strip line = t) from
          fun hh => hst hh.symm)]
        simp
    · rw [show AnalyzeSamples.counterOf_go n (line :: rest) acc =
          AnalyzeSamples.counterOf_go n rest acc
          from by simp [AnalyzeSamples.counterOf_go, hl],
        ih acc t, Spec.occ_cons_skip line rest n t hl]

/-- C5: `check_repeats_from_file` returns exactly the mapping from bitstring
to occurrence count restricted to entries occurring more than once: looking
up any bitstring `s` in its result yields the number of accepted lines whose
stripped text is `s` when that number exceeds 1, and nothing otherwise; in
particular on the log `["0101","0101","1010"]` with N=4 it returns exactly
`{"0101": 2}`. -/
theorem C5_find_duplicates (log : List (List Char)) (n : Nat)
    (s : List Char) :
    Spec.lookupKey s (AnalyzeSamples.check_repeats_from_file log n) =
      (if 1 < Spec.occ log n s then some (Spec.occ log n s) else none) ∧
    AnalyzeSamples.check_repeats_from_file
      [['0','1','0','1'], ['0','1','0','1'], ['1','0','1','0']] 4 =
      [(['0','1','0','1'], 2)] := by
  refine ⟨?_, by decide⟩
  unfold AnalyzeSamples.check_repeats_from_file AnalyzeSamples.counterOf
  rw [Spec.lookupKey_filter _ s
      (AnalyzeSamples.nodup_keys_counterOf_go n log [] (by simp)),
    AnalyzeSamples.lookupKey_counterOf_go n log [] s,
    Spec.lookupKey_nil]
  by_cases h1 : 1 < Spec.occ log n s
  · have h0 : 0 < Spec.occ log n s := by omega
    simp [h0, h1]
  · by_cases h0 : 0 < Spec.occ log n s
    · simp [h0, h1]
    · simp [h0, h1]

/-- Witness for C10: a one-line N=4 log whose line is the non-binary
`"2x2x"` is still processed (count 1), and two copies of the non-binary
`"ab"` in an N=2 log are reported as a duplicate with count 2. -/
theorem C10_nonbinary_acceptance_witness :
    AnalyzeSampleAnalysis.lines_until_target [['2','x','2','x']] 4
      ['0','0','0','0'] = 1 ∧
    AnalyzeSamples.check_repeats_from_file [['a','b'], ['a','b']] 2 =
      [(Consensus.strip ['a','b'], 2)] :=
  ⟨C10_nonbinary_acceptance.1 ['2','x','2','x'] 4 ['0','0','0','0']
      (by decide),
    C10_nonbinary_acceptance.2.1 ['a','b'] 2 (by decide)⟩
